import Mathlib

/-!
Verification of the User Profile API (`src/app.py`): a Flask + SQLAlchemy CRUD
service over a single `User` table.  The embedding models

* the `User` row type and the SQLite-backed table (`DB`), with the storage
  layer's id generator as a counter `nextId`;
* the JSON values a request body may carry, with Python truthiness and the
  dynamic behaviours the handlers rely on (`dict.get`, `in`, subscripting),
  including the exceptions they raise on non-dict values;
* the seed initializer `create_db_with_samples`;
* the four resource handlers `UsersList.get`, `UsersList.post`,
  `UserResource.get`, `UserResource.put`, `UserResource.delete`.

A handler that would raise a Python exception past its own code is modelled as
`Except.error`; the `IntegrityError` branch that the handlers catch themselves
is modelled inside the handler (rollback, 400 response).
-/

/-- A JSON value as produced by `request.get_json()` (a Python object:
`None`, `bool`, `int`, `str`, `list`, `dict`). -/
inductive Json where
  | null
  | bool (b : Bool)
  | num (n : Int)
  | str (s : String)
  | arr (xs : List Json)
  | obj (kvs : List (String × Json))

/-- Python truthiness of a JSON value (`not data` in the handlers):
`None`, `False`, `0`, `""`, `[]` and the empty dict are falsy. -/
def Json.truthy : Json → Bool
  | .null => false
  | .bool b => b
  | .num n => n != 0
  | .str s => s != ""
  | .arr xs => !xs.isEmpty
  | .obj kvs => !kvs.isEmpty

/-- Dictionary lookup on the key-value pairs of a parsed JSON object
(later bindings shadow earlier ones, as in a Python dict). -/
def lookupKey (kvs : List (String × Json)) (k : String) : Option Json :=
  (kvs.reverse.find? (fun p => p.1 = k)).map (fun p => p.2)

/-- The Python exceptions the handlers can let escape, plus the SQLAlchemy
error for non-scalar column values. -/
inductive PyError where
  | attributeError
  | typeError
  | keyError
  | interfaceError
  deriving Repr, DecidableEq

/-- Equality of handler outcomes is decidable (used to evaluate the
handlers on concrete requests). -/
instance {eps alpha : Type} [DecidableEq eps] [DecidableEq alpha] :
    DecidableEq (Except eps alpha) := fun a b =>
  match a, b with
  | .ok x, .ok y =>
    if h : x = y then isTrue (by rw [h]) else isFalse (by simp [h])
  | .error x, .error y =>
    if h : x = y then isTrue (by rw [h]) else isFalse (by simp [h])
  | .ok _, .error _ => isFalse (by simp)
  | .error _, .ok _ => isFalse (by simp)

/-- `data.get(k)`: `None` when the key is absent; raises `AttributeError`
when `data` is not a dict. -/
def pyGet (j : Json) (k : String) : Except PyError (Option Json) :=
  match j with
  | .obj kvs => .ok (lookupKey kvs k)
  | _ => .error .attributeError

/-- Python `==` between a JSON value and a string (used by `k in list`). -/
def Json.eqStr (j : Json) (s : String) : Bool :=
  match j with
  | .str t => t = s
  | _ => false

/-- Does `sub` occur as a contiguous substring of `s` (Python `sub in s`)? -/
def subOccurs (sub : List Char) : List Char → Bool
  | [] => sub.isEmpty
  | c :: t => sub.isPrefixOf (c :: t) || subOccurs sub t

/-- Python `k in data`: key membership for dicts, element membership for
lists, substring test for strings; `TypeError` otherwise. -/
def pyIn (k : String) (j : Json) : Except PyError Bool :=
  match j with
  | .obj kvs => .ok (kvs.any (fun p => p.1 = k))
  | .arr xs => .ok (xs.any (fun x => x.eqStr k))
  | .str s => .ok (subOccurs k.data s.data)
  | _ => .error .typeError

/-- Python `data[k]`: raises `TypeError` on non-integer subscripts of lists
and strings (and on non-subscriptable values), `KeyError` on a missing dict
key. -/
def pySubscript (j : Json) (k : String) : Except PyError Json :=
  match j with
  | .obj kvs =>
    match lookupKey kvs k with
    | some v => .ok v
    | none => .error .keyError
  | _ => .error .typeError

/-- Decimal rendering of a natural number's digits, least significant first
(SQLite's text affinity turns a numeric value bound to a `String` column
into its decimal text). -/
def natDigitsRev : Nat → List Char
  | 0 => []
  | n + 1 =>
    Char.ofNat (48 + (n + 1) % 10) :: natDigitsRev ((n + 1) / 10)
decreasing_by exact Nat.div_lt_self (Nat.succ_pos n) (by omega)

/-- Decimal text of a natural number. -/
def natStored (n : Nat) : String := ⟨(natDigitsRev n).reverse⟩

/-- Decimal text of an integer. -/
def intStored : Int → String
  | .ofNat 0 => "0"
  | .ofNat (n + 1) => natStored (n + 1)
  | .negSucc n => "-" ++ natStored (n + 1)

/-- The value a JSON scalar takes when bound to a `String(120)` column and
flushed: `none` is SQL `NULL` (violating `nullable=False`), numbers and
booleans are stored under SQLite's text affinity, and a list or dict cannot
be bound at all (`InterfaceError` escapes the handler, which only catches
`IntegrityError`). -/
def Json.stored : Json → Except PyError (Option String)
  | .null => .ok none
  | .bool b => .ok (some (if b then "1" else "0"))
  | .num n => .ok (some (intStored n))
  | .str s => .ok (some s)
  | .arr _ => .error .interfaceError
  | .obj _ => .error .interfaceError

/-- A row of the `User` table (`class User(db.Model)` in `src/app.py`):
`id` integer primary key, `name` and `email` non-null strings, `email`
unique. -/
structure User where
  id : Nat
  name : String
  email : String
  deriving Repr, DecidableEq

/-- The user table together with the storage layer's id generator.

Modelled from the spec: the id generator itself lives in the store, not in
`src/app.py`; per the spec, "`id`: integer, primary key, generated by the
storage layer on insert" and "`id` values are never reused after deletion
within a single process lifetime", so it is a counter that only grows. -/
structure DB where
  users : List User
  nextId : Nat
  deriving Repr, DecidableEq

/-- The store before `db.create_all()` has ever inserted anything
(SQLite assigns rowids starting at 1). -/
def emptyDB : DB := ⟨[], 1⟩

/-- `User.query.get(id)`: primary-key lookup. -/
def findUser (db : DB) (id : Nat) : Option User :=
  db.users.find? (fun u => u.id = id)

/-- The six sample rows of `create_db_with_samples`. -/
def sampleData : List (String × String) :=
  [ ("Aarav Kumar", "aarav.kumar@example.com"),
    ("Priya Sharma", "priya.sharma@example.com"),
    ("Rohan Patel", "rohan.patel@example.com"),
    ("Sneha Reddy", "sneha.reddy@example.com"),
    ("Vikram Singh", "vikram.singh@example.com"),
    ("Meera Iyer", "meera.iyer@example.com") ]

/-- `create_db_with_samples()`: if `User.query.first() is None` (the table
is empty), bulk-insert the six samples; otherwise do nothing. -/
def create_db_with_samples (db : DB) : DB :=
  if db.users.isEmpty then
    { users := db.users ++ sampleData.enum.map (fun p => ⟨db.nextId + p.1, p.2.1, p.2.2⟩),
      nextId := db.nextId + sampleData.length }
  else db

/-- The state after the import-time `with app.app_context():
create_db_with_samples()` on a fresh store. -/
def seededDB : DB := create_db_with_samples emptyDB

/-- The `data` part of a JSON envelope: a single user or a list of users. -/
inductive Payload where
  | one (u : User)
  | many (us : List User)
  deriving Repr, DecidableEq

/-- The JSON envelope every handler returns; the HTTP status code returned
alongside always equals the `status` field in `src/app.py`, so a single
field models both. -/
structure Response where
  status : Nat
  message : Option String
  data : Option Payload
  deriving Repr, DecidableEq

/-- 400, `"Missing 'name' or 'email' in request body"`. -/
def respMissing : Response := ⟨400, some "Missing \x27name\x27 or \x27email\x27 in request body", none⟩

/-- 400, `"Email already exists"` (the caught `IntegrityError` branch). -/
def respDup : Response := ⟨400, some "Email already exists", none⟩

/-- 404, `"User not found"`. -/
def respNotFound : Response := ⟨404, some "User not found", none⟩

/-- 400, `"Request body required"`. -/
def respBodyRequired : Response := ⟨400, some "Request body required", none⟩

/-- 200, `"User deleted"`. -/
def respDeleted : Response := ⟨200, some "User deleted", none⟩

/-- `GET /users` (`UsersList.get`): 200 with all users. -/
def UsersList.get (db : DB) : Response := ⟨200, none, some (.many db.users)⟩

/-- The commit of `UsersList.post`: flush the new row; `IntegrityError`
(duplicate email, or a `NULL` in a non-nullable column) is caught and rolled
back with a 400; an unbindable column value raises `InterfaceError` past the
handler. -/
def postCommit (db : DB) (nv ev : Json) : Except PyError (DB × Response) :=
  match nv.stored, ev.stored with
  | .ok (some n), .ok (some e) =>
    if db.users.any (fun u => u.email = e) then
      .ok (db, respDup)
    else
      .ok ({ users := db.users ++ [⟨db.nextId, n, e⟩], nextId := db.nextId + 1 },
           ⟨201, some "User created", some (.one ⟨db.nextId, n, e⟩)⟩)
  | .error err, _ => .error err
  | _, .error err => .error err
  | _, _ => .ok (db, respDup)

/-- `POST /users` (`UsersList.post`): `body = none` models
`request.get_json()` returning `None`.  The validation
`if not data or not data.get("name") or not data.get("email")` short-circuits
left to right; `.get` on a non-dict raises `AttributeError`. -/
def UsersList.post (db : DB) (body : Option Json) : Except PyError (DB × Response) :=
  match body with
  | none => .ok (db, respMissing)
  | some data =>
    if data.truthy = false then .ok (db, respMissing)
    else
      match pyGet data "name" with
      | .error err => .error err
      | .ok nv =>
        if (nv.getD .null).truthy = false then .ok (db, respMissing)
        else
          match pyGet data "email" with
          | .error err => .error err
          | .ok ev =>
            if (ev.getD .null).truthy = false then .ok (db, respMissing)
            else postCommit db (nv.getD .null) (ev.getD .null)

/-- `GET /users/<id>` (`UserResource.get`). -/
def UserResource.get (db : DB) (id : Nat) : Response :=
  match findUser db id with
  | none => respNotFound
  | some u => ⟨200, none, some (.one u)⟩

/-- `if k in data: field = data[k]`, else keep the current column value. -/
def pendingField (data : Json) (k : String) (old : String) : Except PyError Json :=
  match pyIn k data with
  | .error err => .error err
  | .ok true => pySubscript data k
  | .ok false => .ok (.str old)

/-- The commit of `UserResource.put`: flushing the updated row violates the
unique constraint exactly when a different row already holds the new email;
`IntegrityError` (also from a `NULL` field) is caught and rolled back with a
400; an unbindable value raises `InterfaceError` past the handler. -/
def putCommit (db : DB) (user : User) (pn pe : Json) : Except PyError (DB × Response) :=
  match pn.stored, pe.stored with
  | .ok (some n), .ok (some e) =>
    if db.users.any (fun r => r.id != user.id && r.email = e) then
      .ok (db, respDup)
    else
      .ok ({ db with
             users := db.users.map (fun r => if r.id = user.id then ⟨r.id, n, e⟩ else r) },
           ⟨200, some "User updated", some (.one ⟨user.id, n, e⟩)⟩)
  | .error err, _ => .error err
  | _, .error err => .error err
  | _, _ => .ok (db, respDup)

/-- `PUT /users/<id>` (`UserResource.put`): 404 when the id is absent, 400
when the body is missing or falsy, then field-wise overwrite of `name` and
`email` followed by the commit. -/
def UserResource.put (db : DB) (id : Nat) (body : Option Json) : Except PyError (DB × Response) :=
  match findUser db id with
  | none => .ok (db, respNotFound)
  | some user =>
    match body with
    | none => .ok (db, respBodyRequired)
    | some data =>
      if data.truthy = false then .ok (db, respBodyRequired)
      else
        match pendingField data "name" user.name with
        | .error err => .error err
        | .ok pn =>
          match pendingField data "email" user.email with
          | .error err => .error err
          | .ok pe => putCommit db user pn pe

/-- `DELETE /users/<id>` (`UserResource.delete`). -/
def UserResource.delete (db : DB) (id : Nat) : DB × Response :=
  match findUser db id with
  | none => (db, respNotFound)
  | some user =>
    ({ db with users := db.users.filter (fun r => r.id != user.id) }, respDeleted)

/-- One mutating HTTP request: `POST /users`, `PUT /users/<id>` or
`DELETE /users/<id>` with its parsed body. -/
inductive Op where
  | post (body : Option Json)
  | put (id : Nat) (body : Option Json)
  | del (id : Nat)

/-- The state after serving one request: a handler that raises leaves the
store unchanged (its transaction is never committed). -/
def applyOp (db : DB) : Op → DB
  | .post b =>
    match UsersList.post db b with
    | .ok r => r.1
    | .error _ => db
  | .put i b =>
    match UserResource.put db i b with
    | .ok r => r.1
    | .error _ => db
  | .del i => (UserResource.delete db i).1

/-- The validation condition of `UsersList.post` on an object body: the
body, its `name` value or its `email` value is Python-falsy or absent. -/
def postMissing (kvs : List (String × Json)) : Bool :=
  !(Json.obj kvs).truthy || !((lookupKey kvs "name").getD Json.null).truthy ||
    !((lookupKey kvs "email").getD Json.null).truthy
/-- `i` is not the id of any user in any state visited during the run
`ops` from the seeded store. -/
def idFreeInRun (ops : List Op) (i : Nat) : Prop :=
  ∀ l1 l2, ops = l1 ++ l2 → ∀ v ∈ (l1.foldl applyOp seededDB).users, v.id ≠ i
/-- Is the operation a create or a delete (the operations for which the
non-emptiness invariant survives)? -/
def Op.isCreateOrDelete : Op → Bool
  | .post _ => true
  | .put _ _ => false
  | .del _ => true
/-- Every live record has a non-empty name and a non-empty email. -/
def nonEmptyFields (db : DB) : Bool :=
  db.users.all (fun u => u.name != "" && u.email != "")
/-- A JSON scalar: a value SQLAlchemy can bind to a column (everything but
lists and dicts). -/
def Json.isScalar : Json → Bool
  | .arr _ => false
  | .obj _ => false
  | _ => true
/-- Bodies on which the handlers are total: absent, falsy, or an object
whose values are scalars. -/
def bodySafe : Option Json → Bool
  | none => true
  | some j =>
    !j.truthy ||
      (match j with
       | .obj kvs => kvs.all (fun p => p.2.isScalar)
       | _ => false)

/-- No two live records share an email. -/
def emailsNodup (db : DB) : Prop := (db.users.map User.email).Nodup

/-- No two live records share a primary key. -/
def idsNodup (db : DB) : Prop := (db.users.map User.id).Nodup

/-- Every live record's id is positive and below the id counter. -/
def idsBounded (db : DB) : Prop := ∀ u ∈ db.users, 0 < u.id ∧ u.id < db.nextId

/-- The store invariant maintained by every request. -/
def StoreInv (db : DB) : Prop := emailsNodup db ∧ idsNodup db ∧ idsBounded db ∧ 0 < db.nextId

theorem natStored_ne_empty (n : Nat) (h : n ≠ 0) : natStored n ≠ "" := by
  cases n with
  | zero => exact absurd rfl h
  | succ m =>
    intro hc
    have hd : (natDigitsRev (m + 1)).reverse = ([] : List Char) := congrArg String.data hc
    rw [natDigitsRev] at hd
    simp at hd

theorem intStored_ne_empty (n : Int) (h : n ≠ 0) : intStored n ≠ "" := by
  match n with
  | .ofNat 0 => exact absurd rfl h
  | .ofNat (m + 1) => exact natStored_ne_empty (m + 1) (Nat.succ_ne_zero m)
  | .negSucc m =>
    intro hc
    have hd : ("-" ++ natStored (m + 1)).data = ([] : List Char) := congrArg String.data hc
    simp [String.data_append] at hd

theorem stored_ne_empty {j : Json} {s : String} (ht : j.truthy = true)
    (hs : j.stored = .ok (some s)) : s ≠ "" := by
  cases j with
  | null => simp [Json.truthy] at ht
  | bool b =>
    cases b with
    | false => simp [Json.truthy] at ht
    | true =>
      simp [Json.stored] at hs
      subst hs
      decide
  | num n =>
    simp [Json.truthy] at ht
    simp [Json.stored] at hs
    subst hs
    exact intStored_ne_empty n ht
  | str t =>
    simp [Json.truthy] at ht
    simp [Json.stored] at hs
    subst hs
    exact ht
  | arr xs => simp [Json.stored] at hs
  | obj kvs => simp [Json.stored] at hs

theorem post_ok {db : DB} {body : Option Json} {db' : DB} {r : Response}
    (h : UsersList.post db body = .ok (db', r)) :
    db' = db ∨ ∃ n e, n ≠ "" ∧ e ≠ "" ∧
      (db.users.any (fun u => u.email = e)) = false ∧
      db' = { users := db.users ++ [⟨db.nextId, n, e⟩], nextId := db.nextId + 1 } := by
  cases body with
  | none =>
    simp only [UsersList.post, Except.ok.injEq, Prod.mk.injEq] at h
    exact Or.inl h.1.symm
  | some data =>
    simp only [UsersList.post] at h
    split at h
    · simp only [Except.ok.injEq, Prod.mk.injEq] at h
      exact Or.inl h.1.symm
    · split at h
      next err heq => exact Except.noConfusion h
      next nv heq =>
        split at h
        · simp only [Except.ok.injEq, Prod.mk.injEq] at h
          exact Or.inl h.1.symm
        · rename_i hnt
          split at h
          next err2 heq2 => exact Except.noConfusion h
          next ev heq2 =>
            split at h
            · simp only [Except.ok.injEq, Prod.mk.injEq] at h
              exact Or.inl h.1.symm
            · rename_i het
              simp only [postCommit] at h
              split at h
              next n e hsn hse =>
                split at h
                · simp only [Except.ok.injEq, Prod.mk.injEq] at h
                  exact Or.inl h.1.symm
                · rename_i hdup
                  simp only [Except.ok.injEq, Prod.mk.injEq] at h
                  exact Or.inr ⟨n, e,
                    stored_ne_empty (by simpa using hnt) hsn,
                    stored_ne_empty (by simpa using het) hse,
                    by simpa using hdup, h.1.symm⟩
              next => exact Except.noConfusion h
              next => exact Except.noConfusion h
              next =>
                simp only [Except.ok.injEq, Prod.mk.injEq] at h
                exact Or.inl h.1.symm

theorem put_ok {db : DB} {id : Nat} {body : Option Json} {db' : DB} {r : Response}
    (h : UserResource.put db id body = .ok (db', r)) :
    db' = db ∨ ∃ user n e, findUser db id = some user ∧
      (db.users.any (fun x => x.id != user.id && x.email = e)) = false ∧
      db' = { db with
              users := db.users.map (fun x => if x.id = user.id then ⟨x.id, n, e⟩ else x) } := by
  unfold UserResource.put at h
  split at h
  · simp only [Except.ok.injEq, Prod.mk.injEq] at h
    exact Or.inl h.1.symm
  next user hfind =>
    cases body with
    | none =>
      simp only [Except.ok.injEq, Prod.mk.injEq] at h
      exact Or.inl h.1.symm
    | some data =>
      simp only at h
      split at h
      · simp only [Except.ok.injEq, Prod.mk.injEq] at h
        exact Or.inl h.1.symm
      · split at h
        next err heq => exact Except.noConfusion h
        next pn heq =>
          split at h
          next err2 heq2 => exact Except.noConfusion h
          next pe heq2 =>
            simp only [putCommit] at h
            split at h
            next n e hsn hse =>
              split at h
              · simp only [Except.ok.injEq, Prod.mk.injEq] at h
                exact Or.inl h.1.symm
              · rename_i hdup
                simp only [Except.ok.injEq, Prod.mk.injEq] at h
                exact Or.inr ⟨user, n, e, hfind, by simpa using hdup, h.1.symm⟩
            next => exact Except.noConfusion h
            next => exact Except.noConfusion h
            next =>
              simp only [Except.ok.injEq, Prod.mk.injEq] at h
              exact Or.inl h.1.symm

theorem delete_state (db : DB) (id : Nat) :
    (UserResource.delete db id).1 = db ∨ ∃ user, findUser db id = some user ∧
      (UserResource.delete db id).1 =
        { db with users := db.users.filter (fun x => x.id != user.id) } := by
  unfold UserResource.delete
  split
  · exact Or.inl rfl
  next user hfind => exact Or.inr ⟨user, hfind, rfl⟩

theorem ids_map_update (uid : Nat) (n e : String) (l : List User) :
    (l.map (fun x => if x.id = uid then User.mk x.id n e else x)).map User.id = l.map User.id := by
  rw [List.map_map]
  apply List.map_congr_left
  intro x _
  by_cases hx : x.id = uid <;> simp [hx, Function.comp]

theorem emails_nodup_update (uid : Nat) (n e : String) (l : List User)
    (hid : (l.map User.id).Nodup) (hem : (l.map User.email).Nodup)
    (hg : ∀ x ∈ l, x.id ≠ uid → x.email ≠ e) :
    ((l.map (fun x => if x.id = uid then User.mk x.id n e else x)).map User.email).Nodup := by
  induction l with
  | nil => simp
  | cons a t ih =>
    simp only [List.map_cons, List.nodup_cons] at hid hem ⊢
    refine ⟨?_, ih hid.2 hem.2 (fun x hx => hg x (List.mem_cons_of_mem a hx))⟩
    intro hmem
    rw [List.map_map, List.mem_map] at hmem
    obtain ⟨x, hx, hfx⟩ := hmem
    by_cases ha : a.id = uid
    · rw [if_pos ha] at hfx
      by_cases hxid : x.id = uid
      · exact hid.1 (ha ▸ hxid ▸ List.mem_map_of_mem User.id hx)
      · simp only [Function.comp, if_neg hxid] at hfx
        exact hg x (List.mem_cons_of_mem a hx) hxid hfx
    · rw [if_neg ha] at hfx
      by_cases hxid : x.id = uid
      · simp only [Function.comp, if_pos hxid] at hfx
        exact hg a (List.mem_cons_self a t) ha hfx.symm
      · simp only [Function.comp, if_neg hxid] at hfx
        exact hem.1 (hfx ▸ List.mem_map_of_mem User.email hx)

theorem StoreInv_insert {db : DB} {n e : String} (hI : StoreInv db)
    (hno : (db.users.any (fun u => u.email = e)) = false) :
    StoreInv ⟨db.users ++ [⟨db.nextId, n, e⟩], db.nextId + 1⟩ := by
  obtain ⟨hem, hid, hb, hpos⟩ := hI
  have hnoE : ∀ u ∈ db.users, u.email ≠ e := by
    intro u hu
    have := List.any_eq_false.mp hno u hu
    simpa using this
  refine ⟨?_, ?_, ?_, Nat.lt_succ_of_lt hpos⟩
  · simp only [emailsNodup, List.map_append, List.map_cons, List.map_nil, List.nodup_append]
    refine ⟨hem, List.nodup_singleton e, ?_⟩
    intro x hx hx'
    simp only [List.mem_singleton] at hx'
    obtain ⟨u, hu, hue⟩ := List.mem_map.mp hx
    exact hnoE u hu (hue.trans hx')
  · simp only [idsNodup, List.map_append, List.map_cons, List.map_nil, List.nodup_append]
    refine ⟨hid, List.nodup_singleton _, ?_⟩
    intro x hx hx'
    simp only [List.mem_singleton] at hx'
    obtain ⟨u, hu, hue⟩ := List.mem_map.mp hx
    exact absurd (hue ▸ hx' ▸ (hb u hu).2) (lt_irrefl _)
  · intro u hu
    rcases List.mem_append.mp hu with hu | hu
    · exact ⟨(hb u hu).1, Nat.lt_succ_of_lt (hb u hu).2⟩
    · simp only [List.mem_singleton] at hu
      subst hu
      exact ⟨hpos, Nat.lt_succ_self _⟩

theorem StoreInv_update {db : DB} {user : User} {n e : String} (hI : StoreInv db)
    (_hmem : user ∈ db.users)
    (hno : (db.users.any (fun x => x.id != user.id && x.email = e)) = false) :
    StoreInv { db with users := db.users.map (fun x => if x.id = user.id then ⟨x.id, n, e⟩ else x) } := by
  obtain ⟨hem, hid, hb, hpos⟩ := hI
  have hg : ∀ x ∈ db.users, x.id ≠ user.id → x.email ≠ e := by
    intro x hx hxid
    have := List.any_eq_false.mp hno x hx
    simpa [hxid] using this
  refine ⟨emails_nodup_update user.id n e db.users hid hem hg, ?_, ?_, hpos⟩
  · simp only [idsNodup]
    rw [ids_map_update]
    exact hid
  · intro u hu
    obtain ⟨x, hx, rfl⟩ := List.mem_map.mp hu
    by_cases hxid : x.id = user.id
    · rw [if_pos hxid]
      exact hb x hx
    · rw [if_neg hxid]
      exact hb x hx

theorem StoreInv_delete {db : DB} (hI : StoreInv db) (uid : Nat) :
    StoreInv { db with users := db.users.filter (fun x => x.id != uid) } := by
  obtain ⟨hem, hid, hb, hpos⟩ := hI
  have hsub : List.Sublist (db.users.filter (fun x => x.id != uid)) db.users := List.filter_sublist _
  refine ⟨?_, ?_, ?_, hpos⟩
  · exact (hsub.map User.email).nodup hem
  · exact (hsub.map User.id).nodup hid
  · intro u hu
    exact hb u (hsub.mem hu)

theorem StoreInv_applyOp {db : DB} (op : Op) (hI : StoreInv db) : StoreInv (applyOp db op) := by
  cases op with
  | post b =>
    simp only [applyOp]
    split
    next res hok =>
      rcases post_ok hok with h1 | ⟨n, e, _, _, hno, h2⟩
      · rw [h1]; exact hI
      · rw [h2]; exact StoreInv_insert hI hno
    next => exact hI
  | put i b =>
    simp only [applyOp]
    split
    next res hok =>
      rcases put_ok hok with h1 | ⟨user, n, e, hfind, hno, h2⟩
      · rw [h1]; exact hI
      · rw [h2]
        exact StoreInv_update hI (List.mem_of_find?_eq_some hfind) hno
    next => exact hI
  | del i =>
    simp only [applyOp]
    rcases delete_state db i with h1 | ⟨user, _, h2⟩
    · rw [h1]; exact hI
    · rw [h2]; exact StoreInv_delete hI user.id

theorem StoreInv_foldl (ops : List Op) {db : DB} (hI : StoreInv db) : StoreInv (ops.foldl applyOp db) := by
  induction ops generalizing db with
  | nil => exact hI
  | cons op rest ih => exact ih (StoreInv_applyOp op hI)

theorem StoreInv_seededDB : StoreInv seededDB := by
  refine ⟨?_, ?_, ?_, ?_⟩
  · show (seededDB.users.map User.email).Nodup
    decide
  · show (seededDB.users.map User.id).Nodup
    decide
  · show ∀ u ∈ seededDB.users, 0 < u.id ∧ u.id < seededDB.nextId
    decide
  · decide

theorem nextId_le_applyOp (db : DB) (op : Op) : db.nextId ≤ (applyOp db op).nextId := by
  cases op with
  | post b =>
    simp only [applyOp]
    split
    next res hok =>
      rcases post_ok hok with h1 | ⟨n, e, _, _, _, h2⟩
      · rw [h1]
      · rw [h2]; exact Nat.le_succ _
    next => exact Nat.le_refl _
  | put i b =>
    simp only [applyOp]
    split
    next res hok =>
      rcases put_ok hok with h1 | ⟨user, n, e, _, _, h2⟩
      · rw [h1]
      · rw [h2]
    next => exact Nat.le_refl _
  | del i =>
    simp only [applyOp]
    rcases delete_state db i with h1 | ⟨user, _, h2⟩
    · rw [h1]
    · rw [h2]

theorem nextId_le_foldl (ops : List Op) (db : DB) :
    db.nextId ≤ (ops.foldl applyOp db).nextId := by
  induction ops generalizing db with
  | nil => exact Nat.le_refl _
  | cons op rest ih =>
    exact Nat.le_trans (nextId_le_applyOp db op) (ih _)

theorem no_other_same_email {l : List User} {user : User}
    (hem : (l.map User.email).Nodup) (hmem : user ∈ l) :
    (l.any (fun x => x.id != user.id && x.email = user.email)) = false := by
  apply List.any_eq_false.mpr
  intro x hx
  simp only [Bool.and_eq_true, bne_iff_ne, decide_eq_true_eq, not_and]
  intro hne he
  exact hne (congrArg User.id (List.inj_on_of_nodup_map hem hx hmem he))

theorem update_map_email_eq {l : List User} {user : User}
    (hid : (l.map User.id).Nodup) (hmem : user ∈ l) (n : String) :
    l.map (fun x => if x.id = user.id then User.mk x.id n user.email else x) =
    l.map (fun x => if x.id = user.id then User.mk x.id n x.email else x) := by
  apply List.map_congr_left
  intro x hx
  by_cases hxid : x.id = user.id
  · rw [if_pos hxid, if_pos hxid, List.inj_on_of_nodup_map hid hx hmem hxid]
  · rw [if_neg hxid, if_neg hxid]

theorem update_map_name_eq {l : List User} {user : User}
    (hid : (l.map User.id).Nodup) (hmem : user ∈ l) (e : String) :
    l.map (fun x => if x.id = user.id then User.mk x.id user.name e else x) =
    l.map (fun x => if x.id = user.id then User.mk x.id x.name e else x) := by
  apply List.map_congr_left
  intro x hx
  by_cases hxid : x.id = user.id
  · rw [if_pos hxid, if_pos hxid, List.inj_on_of_nodup_map hid hx hmem hxid]
  · rw [if_neg hxid, if_neg hxid]

/-- C1: in every state reachable from the seeded initial store by any
sequence of create (`POST /users`), update (`PUT /users/<id>`) and delete
(`DELETE /users/<id>`) requests, no two live `User` records share the same
email value. -/
theorem email_uniqueness_invariant (ops : List Op) :
    ((ops.foldl applyOp seededDB).users.map User.email).Nodup :=
  (StoreInv_foldl ops StoreInv_seededDB).1

/-- C3: `create_db_with_samples` is a no-op on every state with a non-empty
user table; running it twice from the empty store leaves exactly the six
sample records, so the list endpoint reports 6 users. -/
theorem seed_idempotent :
    (∀ db : DB, db.users ≠ [] → create_db_with_samples db = db) ∧
    create_db_with_samples (create_db_with_samples emptyDB) = create_db_with_samples emptyDB ∧
    (create_db_with_samples (create_db_with_samples emptyDB)).users.length = 6 ∧
    UsersList.get (create_db_with_samples (create_db_with_samples emptyDB)) =
      ⟨200, none, some (.many seededDB.users)⟩ := by
  refine ⟨?_, by decide, by decide, by decide⟩
  intro db h
  unfold create_db_with_samples
  rw [if_neg]
  simpa using h

theorem seed_idempotent_witness :
    create_db_with_samples seededDB = seededDB :=
  seed_idempotent.1 seededDB (by decide)

/-- C10: `PUT /users/<id>` on an existing id with the empty JSON object as
body returns 400 `"Request body required"` and leaves the store unchanged:
the handler's `if not data` treats the falsy empty dict like a missing
body. -/
theorem put_empty_object_body (db : DB) (id : Nat)
    (h : (findUser db id).isSome = true) :
    UserResource.put db id (some (.obj [])) = .ok (db, respBodyRequired) := by
  obtain ⟨user, hu⟩ := Option.isSome_iff_exists.mp h
  unfold UserResource.put
  rw [hu]
  rfl

theorem put_empty_object_body_witness :
    UserResource.put seededDB 1 (some (.obj [])) = .ok (seededDB, respBodyRequired) :=
  put_empty_object_body seededDB 1 (by decide)

/-- C6: when `DELETE /users/<id>` succeeds, an immediately following
`GET /users/<id>` returns 404 `"User not found"`; and a GET of any id
absent from the store returns 404 with that message. -/
theorem delete_then_get (db : DB) (id : Nat) :
    ((findUser db id).isSome = true →
      (UserResource.delete db id).2 = respDeleted ∧
      findUser (UserResource.delete db id).1 id = none ∧
      UserResource.get (UserResource.delete db id).1 id = respNotFound) ∧
    ((findUser db id).isSome = false → UserResource.get db id = respNotFound) := by
  constructor
  · intro h
    obtain ⟨user, hu⟩ := Option.isSome_iff_exists.mp h
    have hid : user.id = id := by simpa using List.find?_some hu
    have hdel : UserResource.delete db id =
        ({ db with users := db.users.filter (fun x => x.id != user.id) }, respDeleted) := by
      unfold UserResource.delete
      rw [hu]
    have hnone : findUser (UserResource.delete db id).1 id = none := by
      rw [hdel]
      apply List.find?_eq_none.mpr
      intro x hx
      have hx2 : x.id ≠ user.id := by simpa using (List.mem_filter.mp hx).2
      simp [hid ▸ hx2]
    refine ⟨by rw [hdel], hnone, ?_⟩
    unfold UserResource.get
    rw [hnone]
  · intro h
    have hn : findUser db id = none := by
      cases hf : findUser db id with
      | none => rfl
      | some u => rw [hf] at h; simp at h
    unfold UserResource.get
    rw [hn]

theorem delete_then_get_witness :
    (UserResource.delete seededDB 3).2 = respDeleted ∧
    findUser (UserResource.delete seededDB 3).1 3 = none ∧
    UserResource.get (UserResource.delete seededDB 3).1 3 = respNotFound :=
  (delete_then_get seededDB 3).1 (by decide)

theorem put_name_only_eq (db : DB) (id : Nat) (user : User) (x : String)
    (hu : findUser db id = some user) :
    UserResource.put db id (some (.obj [("name", Json.str x)])) =
      putCommit db user (.str x) (.str user.email) := by
  unfold UserResource.put
  rw [hu]
  rfl

theorem put_email_only_eq (db : DB) (id : Nat) (user : User) (e : String)
    (hu : findUser db id = some user) :
    UserResource.put db id (some (.obj [("email", Json.str e)])) =
      putCommit db user (.str user.name) (.str e) := by
  unfold UserResource.put
  rw [hu]
  rfl

/-- C5: for an existing user id (in a store with distinct ids and emails), a
`PUT` that supplies only `name` rewrites exactly that record's name, keeping
its id and email and every other record unchanged; a `PUT` that supplies
only a non-colliding `email` symmetrically keeps the name. -/
theorem partial_update_frame (db : DB) (id : Nat) (user : User) (x e : String)
    (hu : findUser db id = some user)
    (hid : (db.users.map User.id).Nodup)
    (hem : (db.users.map User.email).Nodup) :
    UserResource.put db id (some (.obj [("name", Json.str x)])) =
      .ok ({ db with
             users := db.users.map (fun r => if r.id = user.id then ⟨r.id, x, r.email⟩ else r) },
           ⟨200, some "User updated", some (.one ⟨user.id, x, user.email⟩)⟩) ∧
    ((∀ v ∈ db.users, v.id ≠ user.id → v.email ≠ e) →
      UserResource.put db id (some (.obj [("email", Json.str e)])) =
        .ok ({ db with
               users := db.users.map (fun r => if r.id = user.id then ⟨r.id, r.name, e⟩ else r) },
             ⟨200, some "User updated", some (.one ⟨user.id, user.name, e⟩)⟩)) := by
  have hmem := List.mem_of_find?_eq_some hu
  constructor
  · rw [put_name_only_eq db id user x hu]
    unfold putCommit
    simp only [Json.stored]
    rw [no_other_same_email hem hmem]
    simp only [Bool.false_eq_true, if_false]
    rw [update_map_email_eq hid hmem x]
  · intro hno
    rw [put_email_only_eq db id user e hu]
    unfold putCommit
    simp only [Json.stored]
    have hguard : (db.users.any (fun r => r.id != user.id && r.email = e)) = false := by
      apply List.any_eq_false.mpr
      intro v hv
      simp only [Bool.and_eq_true, bne_iff_ne, decide_eq_true_eq, not_and]
      exact hno v hv
    rw [hguard]
    simp only [Bool.false_eq_true, if_false]
    rw [update_map_name_eq hid hmem e]

theorem post_nameEmail_eq (db : DB) (n e : String) (hn : n ≠ "") (he : e ≠ "") :
    UsersList.post db (some (.obj [("name", Json.str n), ("email", Json.str e)])) =
      postCommit db (.str n) (.str e) := by
  have h1 : pyGet (Json.obj [("name", Json.str n), ("email", Json.str e)]) "name" =
      .ok (some (.str n)) := rfl
  have h2 : pyGet (Json.obj [("name", Json.str n), ("email", Json.str e)]) "email" =
      .ok (some (.str e)) := rfl
  simp only [UsersList.post]
  rw [h1, h2]
  simp [Json.truthy, hn, he]

theorem post_name_empty (db : DB) (e : String) :
    UsersList.post db (some (.obj [("name", Json.str ""), ("email", Json.str e)])) =
      .ok (db, respMissing) := rfl

theorem post_email_empty (db : DB) (n : String) (hn : n ≠ "") :
    UsersList.post db (some (.obj [("name", Json.str n), ("email", Json.str "")])) =
      .ok (db, respMissing) := by
  have h1 : pyGet (Json.obj [("name", Json.str n), ("email", Json.str "")]) "name" =
      .ok (some (.str n)) := rfl
  have h2 : pyGet (Json.obj [("name", Json.str n), ("email", Json.str "")]) "email" =
      .ok (some (.str "")) := rfl
  simp only [UsersList.post]
  rw [h1, h2]
  simp [Json.truthy, hn]

/-- C4: whenever `POST /users` with name `n` and email `e` succeeds with a
created user `u`, a following `GET /users/<u.id>` on the new state returns
200 with a record carrying exactly that name and email. -/
theorem insert_then_get (db : DB) (n e : String) (db' : DB) (u : User)
    (hb : ∀ v ∈ db.users, v.id < db.nextId)
    (hp : UsersList.post db (some (.obj [("name", Json.str n), ("email", Json.str e)])) =
          .ok (db', ⟨201, some "User created", some (.one u)⟩)) :
    u.name = n ∧ u.email = e ∧ UserResource.get db' u.id = ⟨200, none, some (.one u)⟩ := by
  have hn : n ≠ "" := by
    intro h0
    subst h0
    rw [post_name_empty db e] at hp
    simp [respMissing] at hp
  have he : e ≠ "" := by
    intro h0
    subst h0
    rw [post_email_empty db n hn] at hp
    simp [respMissing] at hp
  rw [post_nameEmail_eq db n e hn he] at hp
  unfold postCommit at hp
  simp only [Json.stored] at hp
  split at hp
  · simp [respDup] at hp
  · simp only [Except.ok.injEq, Prod.mk.injEq, Response.mk.injEq, Option.some.injEq,
      Payload.one.injEq] at hp
    obtain ⟨hdb, -, -, hu⟩ := hp
    subst hu
    refine ⟨rfl, rfl, ?_⟩
    subst hdb
    unfold UserResource.get
    have hfu : findUser
        { users := db.users ++ [⟨db.nextId, n, e⟩], nextId := db.nextId + 1 }
        (db.nextId) = some ⟨db.nextId, n, e⟩ := by
      unfold findUser
      rw [List.find?_append]
      have hnone : db.users.find? (fun v => v.id = db.nextId) = none := by
        apply List.find?_eq_none.mpr
        intro v hv
        simp only [decide_eq_true_eq]
        exact Nat.ne_of_lt (hb v hv)
      rw [hnone]
      simp
    rw [hfu]

theorem insert_then_get_witness :
    (User.mk 7 "Zara Khan" "zara.khan@example.com").name = "Zara Khan" ∧
    (User.mk 7 "Zara Khan" "zara.khan@example.com").email = "zara.khan@example.com" ∧
    UserResource.get
      ⟨seededDB.users ++ [⟨7, "Zara Khan", "zara.khan@example.com"⟩], 8⟩ 7 =
      ⟨200, none, some (.one ⟨7, "Zara Khan", "zara.khan@example.com"⟩)⟩ :=
  insert_then_get seededDB "Zara Khan" "zara.khan@example.com"
    ⟨seededDB.users ++ [⟨7, "Zara Khan", "zara.khan@example.com"⟩], 8⟩
    ⟨7, "Zara Khan", "zara.khan@example.com"⟩
    (by decide) (by decide)

theorem partial_update_frame_witness :
    UserResource.put seededDB 2 (some (.obj [("name", Json.str "X")])) =
      .ok ({ seededDB with users := seededDB.users.map (fun r => if r.id = 2 then ⟨r.id, "X", r.email⟩ else r) },
           ⟨200, some "User updated", some (.one ⟨2, "X", "priya.sharma@example.com"⟩)⟩) ∧
    UserResource.put seededDB 2 (some (.obj [("email", Json.str "new.mail@example.com")])) =
      .ok ({ seededDB with users := seededDB.users.map (fun r => if r.id = 2 then ⟨r.id, r.name, "new.mail@example.com"⟩ else r) },
           ⟨200, some "User updated", some (.one ⟨2, "Priya Sharma", "new.mail@example.com"⟩)⟩) :=
  ⟨(partial_update_frame seededDB 2 ⟨2, "Priya Sharma", "priya.sharma@example.com"⟩
      "X" "new.mail@example.com" (by decide) (by decide) (by decide)).1,
   (partial_update_frame seededDB 2 ⟨2, "Priya Sharma", "priya.sharma@example.com"⟩
      "X" "new.mail@example.com" (by decide) (by decide) (by decide)).2 (by decide)⟩

/-- C2: `POST /users` fails with 400 `"Email already exists"` exactly when
some record already holds the posted email, and succeeds otherwise;
`PUT /users/<id>` changing the email fails with that error exactly when a
different record holds the new email (updating a record to its own email
succeeds when emails are unique); every failure returns the store
unchanged. -/
theorem duplicate_email_iff (db : DB) (id : Nat) (user : User) (n e e2 : String)
    (hn : n ≠ "") (he : e ≠ "")
    (hu : findUser db id = some user) :
    ((db.users.any (fun v => v.email = e)) = true →
      UsersList.post db (some (.obj [("name", Json.str n), ("email", Json.str e)])) =
        .ok (db, respDup)) ∧
    ((db.users.any (fun v => v.email = e)) = false →
      UsersList.post db (some (.obj [("name", Json.str n), ("email", Json.str e)])) =
        .ok (⟨db.users ++ [⟨db.nextId, n, e⟩], db.nextId + 1⟩,
             ⟨201, some "User created", some (.one ⟨db.nextId, n, e⟩)⟩)) ∧
    ((db.users.any (fun v => v.id != user.id && v.email = e2)) = true →
      UserResource.put db id (some (.obj [("email", Json.str e2)])) = .ok (db, respDup)) ∧
    ((db.users.any (fun v => v.id != user.id && v.email = e2)) = false →
      UserResource.put db id (some (.obj [("email", Json.str e2)])) =
        .ok ({ db with users := db.users.map (fun r => if r.id = user.id then ⟨r.id, user.name, e2⟩ else r) },
             ⟨200, some "User updated", some (.one ⟨user.id, user.name, e2⟩)⟩)) ∧
    ((db.users.map User.email).Nodup →
      UserResource.put db id (some (.obj [("email", Json.str user.email)])) =
        .ok ({ db with users := db.users.map (fun r => if r.id = user.id then ⟨r.id, user.name, user.email⟩ else r) },
             ⟨200, some "User updated", some (.one ⟨user.id, user.name, user.email⟩)⟩)) := by
  refine ⟨?_, ?_, ?_, ?_, ?_⟩
  · intro h
    rw [post_nameEmail_eq db n e hn he]
    unfold postCommit
    simp only [Json.stored]
    rw [h]
    rfl
  · intro h
    rw [post_nameEmail_eq db n e hn he]
    unfold postCommit
    simp only [Json.stored]
    rw [h]
    rfl
  · intro h
    rw [put_email_only_eq db id user e2 hu]
    unfold putCommit
    simp only [Json.stored]
    rw [h]
    rfl
  · intro h
    rw [put_email_only_eq db id user e2 hu]
    unfold putCommit
    simp only [Json.stored]
    rw [h]
    rfl
  · intro hem
    have hmem := List.mem_of_find?_eq_some hu
    rw [put_email_only_eq db id user user.email hu]
    unfold putCommit
    simp only [Json.stored]
    rw [no_other_same_email hem hmem]
    rfl

theorem duplicate_email_iff_witness :
    UsersList.post seededDB
        (some (.obj [("name", Json.str "Zara Khan"),
                     ("email", Json.str "priya.sharma@example.com")])) =
      .ok (seededDB, respDup) ∧
    UserResource.put seededDB 1
        (some (.obj [("email", Json.str "meera.iyer@example.com")])) =
      .ok (seededDB, respDup) :=
  ⟨(duplicate_email_iff seededDB 1 ⟨1, "Aarav Kumar", "aarav.kumar@example.com"⟩
      "Zara Khan" "priya.sharma@example.com" "meera.iyer@example.com"
      (by decide) (by decide) (by decide)).1 (by decide),
   (duplicate_email_iff seededDB 1 ⟨1, "Aarav Kumar", "aarav.kumar@example.com"⟩
      "Zara Khan" "priya.sharma@example.com" "meera.iyer@example.com"
      (by decide) (by decide) (by decide)).2.2.1 (by decide)⟩

/-- C7 counterexample: a request whose JSON body is the number 5 (present,
but with no `name` field) does not produce the 400 validation envelope the
claim requires for every body lacking `name`/`email`; the handler instead
raises `AttributeError` from `data.get("name")`. -/
theorem post_nonobject_raises :
    UsersList.post seededDB (some (.num 5)) = .error .attributeError := by decide

theorem post_obj_eq (db : DB) (kvs : List (String × Json))
    (h : postMissing kvs = false) :
    UsersList.post db (some (.obj kvs)) =
      postCommit db ((lookupKey kvs "name").getD Json.null)
        ((lookupKey kvs "email").getD Json.null) := by
  simp only [postMissing, Bool.or_eq_false_iff, Bool.not_eq_false'] at h
  obtain ⟨⟨h1, h2⟩, h3⟩ := h
  simp only [UsersList.post, pyGet]
  rw [if_neg (by simp [h1]), if_neg (by simp [h2]), if_neg (by simp [h3])]

theorem post_obj_missing (db : DB) (kvs : List (String × Json))
    (h : postMissing kvs = true) :
    UsersList.post db (some (.obj kvs)) = .ok (db, respMissing) := by
  simp only [postMissing, Bool.or_eq_true, Bool.not_eq_true'] at h
  simp only [UsersList.post, pyGet]
  rcases h with (h1 | h2) | h3
  · rw [if_pos h1]
  · by_cases h1 : (Json.obj kvs).truthy = false
    · rw [if_pos h1]
    · rw [if_neg h1, if_pos h2]
  · by_cases h1 : (Json.obj kvs).truthy = false
    · rw [if_pos h1]
    · rw [if_neg h1]
      by_cases h2 : ((lookupKey kvs "name").getD Json.null).truthy = false
      · rw [if_pos h2]
      · rw [if_neg h2, if_pos h3]

/-- C7 amended: for a body that is absent or a JSON object, `POST /users`
returns 400 `"Missing 'name' or 'email' in request body"` exactly when the
body is absent, falsy, or its `name`/`email` value is absent or falsy; for
a truthy object with string `name` and `email` and no email collision it
returns 201 with the created user, whose id is the store's next counter
value: positive, and different from the id of every record present at any
point of the run (truthy non-object bodies instead raise `AttributeError`,
see the counterexample). -/
theorem post_validation_and_fresh_id (ops : List Op) (db : DB)
    (kvs : List (String × Json)) (n e : String)
    (hdb : db = ops.foldl applyOp seededDB) :
    UsersList.post db none = .ok (db, respMissing) ∧
    (UsersList.post db (some (.obj kvs)) = .ok (db, respMissing) ↔
      postMissing kvs = true) ∧
    (postMissing kvs = false →
      lookupKey kvs "name" = some (.str n) →
      lookupKey kvs "email" = some (.str e) →
      (db.users.any (fun v => v.email = e)) = false →
      UsersList.post db (some (.obj kvs)) =
        .ok (⟨db.users ++ [⟨db.nextId, n, e⟩], db.nextId + 1⟩,
             ⟨201, some "User created", some (.one ⟨db.nextId, n, e⟩)⟩) ∧
      0 < db.nextId ∧ idFreeInRun ops db.nextId) := by
  refine ⟨rfl, ⟨?_, post_obj_missing db kvs⟩, ?_⟩
  · intro hp
    by_cases hm : postMissing kvs = true
    · exact hm
    · exfalso
      rw [post_obj_eq db kvs (by simpa using hm)] at hp
      unfold postCommit at hp
      split at hp
      · split at hp
        · simp [respDup, respMissing] at hp
        · simp [respMissing] at hp
      · exact Except.noConfusion hp
      · exact Except.noConfusion hp
      · simp [respDup, respMissing] at hp
  · intro hm hname hemail hno
    refine ⟨?_, ?_, ?_⟩
    · rw [post_obj_eq db kvs hm, hname, hemail]
      unfold postCommit
      simp only [Option.getD_some, Json.stored]
      rw [hno]
      rfl
    · subst hdb
      exact (StoreInv_foldl ops StoreInv_seededDB).2.2.2
    · intro l1 l2 hsplit v hv
      have hb := ((StoreInv_foldl l1 StoreInv_seededDB).2.2.1) v hv
      have hle : (l1.foldl applyOp seededDB).nextId ≤ db.nextId := by
        rw [hdb, hsplit, List.foldl_append]
        exact nextId_le_foldl l2 _
      exact Nat.ne_of_lt (Nat.lt_of_lt_of_le hb.2 hle)

theorem post_validation_and_fresh_id_witness :
    UsersList.post seededDB
        (some (.obj [("name", Json.str "Zed Adams"),
                     ("email", Json.str "zed.adams@example.com")])) =
      .ok (⟨seededDB.users ++ [⟨7, "Zed Adams", "zed.adams@example.com"⟩], 8⟩,
           ⟨201, some "User created", some (.one ⟨7, "Zed Adams", "zed.adams@example.com"⟩)⟩) ∧
    0 < (7 : Nat) ∧ idFreeInRun [] 7 :=
  (post_validation_and_fresh_id [] seededDB
      [("name", Json.str "Zed Adams"), ("email", Json.str "zed.adams@example.com")]
      "Zed Adams" "zed.adams@example.com" rfl).2.2
    (by decide) rfl rfl (by decide)

/-- C8 counterexample: `PUT /users/1` with body `{"name": ""}` succeeds
with 200 and stores the empty string as the record's name, because the
handler applies any field present in the body without a non-emptiness
check; so the non-emptiness invariant claimed for update operations fails. -/
theorem put_empty_name_stored :
    UserResource.put seededDB 1 (some (.obj [("name", Json.str "")])) =
      .ok (⟨[⟨1, "", "aarav.kumar@example.com"⟩,
             ⟨2, "Priya Sharma", "priya.sharma@example.com"⟩,
             ⟨3, "Rohan Patel", "rohan.patel@example.com"⟩,
             ⟨4, "Sneha Reddy", "sneha.reddy@example.com"⟩,
             ⟨5, "Vikram Singh", "vikram.singh@example.com"⟩,
             ⟨6, "Meera Iyer", "meera.iyer@example.com"⟩], 7⟩,
           ⟨200, some "User updated", some (.one ⟨1, "", "aarav.kumar@example.com"⟩)⟩) := by
  decide

theorem nonEmpty_applyOp {db : DB} {op : Op} (hop : op.isCreateOrDelete = true)
    (h : nonEmptyFields db = true) : nonEmptyFields (applyOp db op) = true := by
  cases op with
  | post b =>
    simp only [applyOp]
    split
    next res hok =>
      rcases post_ok hok with h1 | ⟨n, e, hn, he, _, h2⟩
      · rw [h1]; exact h
      · rw [h2]
        simp only [nonEmptyFields] at h ⊢
        simp [List.all_append, h, hn, he]
    next => exact h
  | put i b => simp [Op.isCreateOrDelete] at hop
  | del i =>
    simp only [applyOp]
    rcases delete_state db i with h1 | ⟨user, _, h2⟩
    · rw [h1]; exact h
    · rw [h2]
      simp only [nonEmptyFields] at h ⊢
      apply List.all_eq_true.mpr
      intro u hu
      exact List.all_eq_true.mp h u (List.mem_of_mem_filter hu)

theorem nonEmpty_foldl (ops : List Op) :
    ∀ db : DB, (∀ op ∈ ops, op.isCreateOrDelete = true) → nonEmptyFields db = true →
      nonEmptyFields (ops.foldl applyOp db) = true := by
  induction ops with
  | nil => exact fun db _ h => h
  | cons op rest ih =>
    intro db hops h
    exact ih _ (fun o ho => hops o (List.mem_cons_of_mem op ho))
      (nonEmpty_applyOp (hops op (List.mem_cons_self op rest)) h)

/-- C8 amended: every record created by `POST /users` has a non-empty name
and email, and the non-emptiness invariant holds in every state reachable
from the seeded store by create and delete operations alone; it does not
survive updates, since `PUT` stores whatever string the body supplies (see
the counterexample). -/
theorem nonempty_fields_create_delete (ops : List Op)
    (h : ops.all Op.isCreateOrDelete = true) :
    nonEmptyFields (ops.foldl applyOp seededDB) = true := by
  refine nonEmpty_foldl ops seededDB ?_ (by decide)
  intro op hop
  exact List.all_eq_true.mp h op hop

theorem nonempty_fields_create_delete_witness :
    nonEmptyFields
      ([Op.post (some (.obj [("name", Json.str "Quinn Park"),
                             ("email", Json.str "quinn.park@example.com")])),
        Op.del 2].foldl applyOp seededDB) = true :=
  nonempty_fields_create_delete
    [Op.post (some (.obj [("name", Json.str "Quinn Park"),
                          ("email", Json.str "quinn.park@example.com")])),
     Op.del 2] (by decide)

/-- C9 counterexample: `PUT /users/1` with the JSON number 7 as body is a
truthy non-dict, so `"name" in data` raises `TypeError` out of the handler
instead of producing a JSON envelope. -/
theorem put_number_body_raises :
    UserResource.put seededDB 1 (some (.num 7)) = .error .typeError := by decide

theorem stored_ok_of_scalar {j : Json} (h : j.isScalar = true) :
    ∃ o, j.stored = Except.ok o := by
  cases j with
  | null => exact ⟨none, rfl⟩
  | bool b => exact ⟨some (if b then "1" else "0"), rfl⟩
  | num n => exact ⟨some (intStored n), rfl⟩
  | str s => exact ⟨some s, rfl⟩
  | arr xs => simp [Json.isScalar] at h
  | obj kvs => simp [Json.isScalar] at h

theorem lookupKey_scalar {kvs : List (String × Json)} {k : String} {v : Json}
    (hall : kvs.all (fun p => p.2.isScalar) = true)
    (hv : lookupKey kvs k = some v) : v.isScalar = true := by
  unfold lookupKey at hv
  cases hf : kvs.reverse.find? (fun p => p.1 = k) with
  | none => rw [hf] at hv; exact Option.noConfusion hv
  | some p =>
    rw [hf] at hv
    have hp : p ∈ kvs := List.mem_reverse.mp (List.mem_of_find?_eq_some hf)
    have hsc := List.all_eq_true.mp hall p hp
    simp only [Option.map_some', Option.some.injEq] at hv
    rw [← hv]
    simpa using hsc

theorem lookupKey_isSome_of_any {kvs : List (String × Json)} {k : String}
    (h : (kvs.any (fun p => p.1 = k)) = true) :
    ∃ v, lookupKey kvs k = some v := by
  unfold lookupKey
  cases hf : kvs.reverse.find? (fun p => p.1 = k) with
  | some p => exact ⟨p.2, rfl⟩
  | none =>
    exfalso
    obtain ⟨p, hp, hpk⟩ := List.any_eq_true.mp h
    exact List.find?_eq_none.mp hf p (List.mem_reverse.mpr hp) hpk

theorem postCommit_isOk (db : DB) (nv ev : Json)
    (hn : nv.isScalar = true) (he : ev.isScalar = true) :
    (postCommit db nv ev).isOk = true := by
  obtain ⟨o1, h1⟩ := stored_ok_of_scalar hn
  obtain ⟨o2, h2⟩ := stored_ok_of_scalar he
  unfold postCommit
  rw [h1, h2]
  cases o1 <;> cases o2
  · rfl
  · rfl
  · rfl
  · split
    all_goals try (split <;> rfl)
    all_goals simp_all

theorem putCommit_isOk (db : DB) (user : User) (pn pe : Json)
    (hn : pn.isScalar = true) (he : pe.isScalar = true) :
    (putCommit db user pn pe).isOk = true := by
  obtain ⟨o1, h1⟩ := stored_ok_of_scalar hn
  obtain ⟨o2, h2⟩ := stored_ok_of_scalar he
  unfold putCommit
  rw [h1, h2]
  cases o1 <;> cases o2
  · rfl
  · rfl
  · rfl
  · split
    all_goals try (split <;> rfl)
    all_goals simp_all

theorem getD_scalar {kvs : List (String × Json)} (k : String)
    (hall : kvs.all (fun p => p.2.isScalar) = true) :
    ((lookupKey kvs k).getD Json.null).isScalar = true := by
  cases hf : lookupKey kvs k with
  | none => rfl
  | some v =>
    simp only [Option.getD_some]
    exact lookupKey_scalar hall hf

theorem pendingField_obj_ok (kvs : List (String × Json)) (k : String) (old : String)
    (hall : kvs.all (fun p => p.2.isScalar) = true) :
    ∃ j, pendingField (.obj kvs) k old = .ok j ∧ j.isScalar = true := by
  unfold pendingField
  simp only [pyIn]
  by_cases hany : (kvs.any (fun p => p.1 = k)) = true
  · rw [hany]
    obtain ⟨v, hv⟩ := lookupKey_isSome_of_any hany
    simp only [pySubscript]
    rw [hv]
    exact ⟨v, rfl, lookupKey_scalar hall hv⟩
  · rw [Bool.not_eq_true] at hany
    rw [hany]
    exact ⟨.str old, rfl, rfl⟩

theorem post_falsy (db : DB) (j : Json) (ht : j.truthy = false) :
    UsersList.post db (some j) = .ok (db, respMissing) := by
  simp only [UsersList.post]
  rw [if_pos ht]

theorem put_falsy_isOk (db : DB) (id : Nat) (j : Json) (ht : j.truthy = false) :
    (UserResource.put db id (some j)).isOk = true := by
  unfold UserResource.put
  split
  · rfl
  next user hfind =>
    show (if j.truthy = false then Except.ok (db, respBodyRequired)
          else
            match pendingField j "name" user.name with
            | Except.error err => Except.error err
            | Except.ok pn =>
              match pendingField j "email" user.email with
              | Except.error err => Except.error err
              | Except.ok pe => putCommit db user pn pe).isOk = true
    rw [if_pos ht]
    rfl

theorem post_isOk_obj (db : DB) (kvs : List (String × Json))
    (hall : kvs.all (fun p => p.2.isScalar) = true) :
    (UsersList.post db (some (.obj kvs))).isOk = true := by
  simp only [UsersList.post, pyGet]
  split
  · rfl
  · split
    · rfl
    · split
      · rfl
      · exact postCommit_isOk db _ _ (getD_scalar "name" hall) (getD_scalar "email" hall)

theorem put_isOk_obj (db : DB) (id : Nat) (kvs : List (String × Json))
    (hall : kvs.all (fun p => p.2.isScalar) = true) :
    (UserResource.put db id (some (.obj kvs))).isOk = true := by
  unfold UserResource.put
  split
  · rfl
  next user hfind =>
    show (if (Json.obj kvs).truthy = false then Except.ok (db, respBodyRequired)
          else
            match pendingField (Json.obj kvs) "name" user.name with
            | Except.error err => Except.error err
            | Except.ok pn =>
              match pendingField (Json.obj kvs) "email" user.email with
              | Except.error err => Except.error err
              | Except.ok pe => putCommit db user pn pe).isOk = true
    by_cases ht : (Json.obj kvs).truthy = false
    · rw [if_pos ht]
      rfl
    · rw [if_neg ht]
      obtain ⟨pn, hpn, hpnS⟩ := pendingField_obj_ok kvs "name" user.name hall
      obtain ⟨pe, hpe, hpeS⟩ := pendingField_obj_ok kvs "email" user.email hall
      rw [hpn, hpe]
      exact putCommit_isOk db user pn pe hpnS hpeS

/-- C9 amended: for every request whose JSON body is absent, falsy, or an
object with scalar field values, both `POST /users` and `PUT /users/<id>`
return a JSON envelope and raise nothing; a truthy non-object body instead
escapes `POST` with `AttributeError` (see the C7 counterexample) and `PUT`
with `TypeError` (see this claim's counterexample), which the framework —
not the handler — turns into a 500. -/
theorem handlers_total_on_safe_bodies (db : DB) (id : Nat) (body : Option Json)
    (h : bodySafe body = true) :
    (UsersList.post db body).isOk = true ∧ (UserResource.put db id body).isOk = true := by
  cases body with
  | none =>
    constructor
    · rfl
    · unfold UserResource.put
      split
      · rfl
      · rfl
  | some j =>
    cases j with
    | null =>
      exact ⟨by rw [post_falsy db Json.null rfl]; rfl, put_falsy_isOk db id Json.null rfl⟩
    | bool b =>
      have ht : (Json.bool b).truthy = false := by
        simp [bodySafe] at h
        simpa [Json.truthy] using h
      exact ⟨by rw [post_falsy db (Json.bool b) ht]; rfl, put_falsy_isOk db id (Json.bool b) ht⟩
    | num n =>
      have ht : (Json.num n).truthy = false := by
        simp [bodySafe] at h
        simpa [Json.truthy] using h
      exact ⟨by rw [post_falsy db (Json.num n) ht]; rfl, put_falsy_isOk db id (Json.num n) ht⟩
    | str s =>
      have ht : (Json.str s).truthy = false := by
        simp [bodySafe] at h
        simpa [Json.truthy] using h
      exact ⟨by rw [post_falsy db (Json.str s) ht]; rfl, put_falsy_isOk db id (Json.str s) ht⟩
    | arr xs =>
      have ht : (Json.arr xs).truthy = false := by
        simp [bodySafe] at h
        simpa [Json.truthy] using h
      exact ⟨by rw [post_falsy db (Json.arr xs) ht]; rfl, put_falsy_isOk db id (Json.arr xs) ht⟩
    | obj kvs =>
      by_cases ht : (Json.obj kvs).truthy = false
      · exact ⟨by rw [post_falsy db (Json.obj kvs) ht]; rfl, put_falsy_isOk db id (Json.obj kvs) ht⟩
      · have hall : kvs.all (fun p => p.2.isScalar) = true := by
          simp only [bodySafe, Bool.or_eq_true, Bool.not_eq_true'] at h
          rcases h with h | h
          · exact absurd h ht
          · exact h
        exact ⟨post_isOk_obj db kvs hall, put_isOk_obj db id kvs hall⟩

theorem handlers_total_on_safe_bodies_witness :
    (UsersList.post seededDB (some (.obj [("name", Json.str "Ana Bell")]))).isOk = true ∧
    (UserResource.put seededDB 4 (some (.obj [("name", Json.str "Ana Bell")]))).isOk = true :=
  handlers_total_on_safe_bodies seededDB 4
    (some (.obj [("name", Json.str "Ana Bell")])) (by decide)
